import Mathlib

/-!
Verification of the password-manager core: the password policy engine
(`generate_password`, `is_strong_password` from `password_manager.py`) and the
credential store (`database.py`), shallowly embedded in Lean.

Randomness (`random.choices`, `random.shuffle`) is parameterised by streams of
natural numbers `Nat → Nat`; every theorem quantifies over all streams.
`st.error` calls are modelled as an accumulated list of report strings, and an
uncaught `mysql.connector.Error` exception is modelled as `Except.error`.
-/

/-- Python `string.ascii_letters`: lowercase followed by uppercase ASCII letters. -/
def asciiLetters : List Char :=
  "abcdefghijklmnopqrstuvwxyzABCDEFGHIJKLMNOPQRSTUVWXYZ".toList

/-- Python `string.punctuation`: the 32 ASCII punctuation characters, in order.
The apostrophe, backslash, backtick and braces are written via `Char.ofNat`
(codes 39, 92, 96, 123, 125). -/
def punctuationChars : List Char :=
  ['!', '"', '#', '$', '%', '&', Char.ofNat 39, '(', ')', '*', '+', ',', '-',
   '.', '/', ':', ';', '<', '=', '>', '?', '@', '[', Char.ofNat 92, ']', '^',
   '_', Char.ofNat 96, Char.ofNat 123, '|', Char.ofNat 125, '~']

/-- Python `string.digits`. -/
def digitChars : List Char := "0123456789".toList

/-- Python `random.choices(population, k=k)`: `k` independent draws with replacement,
each draw an index into `population` supplied by the stream `g`. -/
def randomChoices (g : Nat → Nat) (population : List Char) (k : Nat) : List Char :=
  (List.range k).map fun i => population.getD (g i % population.length) ' '

/-- Exchange the elements at positions `i` and `j` (the body of one
`random.shuffle` iteration: `x[i], x[j] = x[j], x[i]`). -/
def listSwap (l : List Char) (i j : Nat) : List Char :=
  (l.set i (l.getD j ' ')).set j (l.getD i ' ')

/-- The loop of `random.shuffle`: for `i` descending from `len - 1` to `1`,
swap position `i` with position `g i % (i + 1)`. -/
def shuffleStep (g : Nat → Nat) : Nat → List Char → List Char
  | 0, l => l
  | i + 1, l => shuffleStep g i (listSwap l (i + 1) (g (i + 1) % (i + 2)))

/-- Python `random.shuffle`: Fisher-Yates over the whole list, the random index at
each step taken from the stream `g`. -/
def shuffle (g : Nat → Nat) (l : List Char) : List Char :=
  shuffleStep g (l.length - 1) l

/-- Message of `st.error` when `length <= 8`. -/
def lengthErrMsg : String := "Password length must be more than 8."

/-- Message of `st.error` when `num_symbols < 1`. -/
def symbolsErrMsg : String := "At least one symbol is required."

/-- Message of `st.error` when `num_numbers < 1`. -/
def numbersErrMsg : String := "At least one number is required."

/-- Message of `st.error` when `num_symbols + num_numbers >= length`. -/
def sumErrMsg : String := "Sum of symbols and numbers must be less than length."

/-- Embedding of `generate_password(length, num_symbols, num_numbers)` from
`password_manager.py`.  A rejected input (Python: `st.error(msg); return None`)
is `.error msg`; a produced password is `.ok`.  The three `random.choices`
calls and the `random.shuffle` call draw from the streams `g1 g2 g3 gs`. -/
def generate_password (g1 g2 g3 gs : Nat → Nat)
    (length num_symbols num_numbers : Int) : Except String String :=
  if length ≤ 8 then .error lengthErrMsg
  else if num_symbols < 1 then .error symbolsErrMsg
  else if num_numbers < 1 then .error numbersErrMsg
  else if num_symbols + num_numbers ≥ length then .error sumErrMsg
  else
    let letters_count := (length - num_symbols - num_numbers).toNat
    let password_chars :=
      randomChoices g1 asciiLetters letters_count
        ++ randomChoices g2 punctuationChars num_symbols.toNat
        ++ randomChoices g3 digitChars num_numbers.toNat
    .ok (String.mk (shuffle gs password_chars))

/-- The regex `[0-9]` applied to a single character. -/
def isDigitChar (c : Char) : Bool := '0' ≤ c && c ≤ '9'

/-- The regex word class `\w` on a single character (ASCII reading of
`[a-zA-Z0-9_]`). -/
def isWordChar (c : Char) : Bool := c.isAlpha || isDigitChar c || c == '_'

/-- The regex class `[\W_]` on a single character: a non-word character or an
underscore. -/
def matchesSymbolClass (c : Char) : Bool := !(isWordChar c) || c == '_'

/-- Embedding of `is_strong_password(password)` from `password_manager.py`: Python's truthy
result (`bool and Match and Match`) is modelled as the `Bool` it tests as. -/
def is_strong_password (password : String) : Bool :=
  decide (8 < password.length)
    && password.toList.any isDigitChar
    && password.toList.any matchesSymbolClass

theorem randomChoices_length (g : Nat → Nat) (population : List Char) (k : Nat) :
    (randomChoices g population k).length = k := by
  simp [randomChoices]

theorem randomChoices_mem (g : Nat → Nat) (population : List Char)
    (hne : population ≠ []) (k : Nat) :
    ∀ c ∈ randomChoices g population k, c ∈ population := by
  intro c hc
  simp only [randomChoices, List.mem_map, List.mem_range] at hc
  obtain ⟨i, -, rfl⟩ := hc
  have hpos : 0 < population.length := List.length_pos.mpr hne
  have hlt : g i % population.length < population.length := Nat.mod_lt _ hpos
  rw [List.getD_eq_getElem _ _ hlt]
  exact List.getElem_mem hlt

theorem cons_set_perm (d : Char) :
    ∀ (t : List Char) (k : Nat) (a : Char), k < t.length →
      (t.getD k d :: t.set k a).Perm (a :: t) := by
  intro t
  induction t with
  | nil => intro k a hk; simp at hk
  | cons b t ih =>
    intro k a hk
    cases k with
    | zero => simpa [List.getD] using List.Perm.swap a b t
    | succ k =>
      have hk' : k < t.length := by simpa using hk
      have h1 : ((b :: t).getD (k + 1) d :: (b :: t).set (k + 1) a) =
          (t.getD k d :: b :: t.set k a) := by simp [List.getD]
      rw [h1]
      have h2 : (t.getD k d :: b :: t.set k a).Perm (b :: t.getD k d :: t.set k a) :=
        List.Perm.swap b (t.getD k d) _
      have h3 : (b :: t.getD k d :: t.set k a).Perm (b :: a :: t) :=
        (ih k a hk').cons b
      have h4 : (b :: a :: t).Perm (a :: b :: t) := List.Perm.swap a b t
      exact (h2.trans h3).trans h4

theorem listSwap_length (l : List Char) (i j : Nat) :
    (listSwap l i j).length = l.length := by
  simp [listSwap]

theorem listSwap_perm :
    ∀ (l : List Char) (i j : Nat), i < l.length → j < l.length →
      (listSwap l i j).Perm l := by
  intro l
  induction l with
  | nil => intro i j hi _; simp at hi
  | cons a t ih =>
    intro i j hi hj
    cases i with
    | zero =>
      cases j with
      | zero => simp [listSwap, List.getD]
      | succ m =>
        have hm : m < t.length := by simpa using hj
        have h1 : listSwap (a :: t) 0 (m + 1) =
            (t.getD m ' ' :: t.set m a) := by
          simp [listSwap, List.getD]
        rw [h1]
        exact cons_set_perm ' ' t m a hm
    | succ k =>
      cases j with
      | zero =>
        have hk : k < t.length := by simpa using hi
        have h1 : listSwap (a :: t) (k + 1) 0 =
            (t.getD k ' ' :: t.set k a) := by
          simp [listSwap, List.getD]
        rw [h1]
        exact cons_set_perm ' ' t k a hk
      | succ m =>
        have hk : k < t.length := by simpa using hi
        have hm : m < t.length := by simpa using hj
        have h1 : listSwap (a :: t) (k + 1) (m + 1) = a :: listSwap t k m := by
          simp [listSwap, List.getD]
        rw [h1]
        exact (ih k m hk hm).cons a

theorem shuffleStep_perm (g : Nat → Nat) :
    ∀ (k : Nat) (l : List Char), k < l.length → (shuffleStep g k l).Perm l := by
  intro k
  induction k with
  | zero => intro l _; exact List.Perm.refl l
  | succ k ih =>
    intro l hk
    have hj : g (k + 1) % (k + 2) < l.length :=
      lt_of_le_of_lt (Nat.le_of_lt_succ (Nat.mod_lt _ (by omega))) hk
    have hswap : (listSwap l (k + 1) (g (k + 1) % (k + 2))).Perm l :=
      listSwap_perm l (k + 1) _ hk hj
    have hlen : k < (listSwap l (k + 1) (g (k + 1) % (k + 2))).length := by
      rw [listSwap_length]; omega
    exact (ih _ hlen).trans hswap

theorem shuffle_perm (g : Nat → Nat) (l : List Char) : (shuffle g l).Perm l := by
  cases l with
  | nil => exact List.Perm.refl _
  | cons a t =>
    have h : (a :: t).length - 1 < (a :: t).length := by simp
    exact shuffleStep_perm g _ _ h

theorem shuffle_length (g : Nat → Nat) (l : List Char) :
    (shuffle g l).length = l.length :=
  (shuffle_perm g l).length_eq

theorem shuffle_countP (g : Nat → Nat) (p : Char → Bool) (l : List Char) :
    (shuffle g l).countP p = l.countP p :=
  (shuffle_perm g l).countP_eq p

/-- Membership in the letter alphabet, as a countable predicate. -/
def letterMem (c : Char) : Bool := decide (c ∈ asciiLetters)

/-- Membership in the symbol alphabet, as a countable predicate. -/
def symbolMem (c : Char) : Bool := decide (c ∈ punctuationChars)

/-- Membership in the digit alphabet, as a countable predicate. -/
def digitMem (c : Char) : Bool := decide (c ∈ digitChars)

theorem letters_not_symbols : ∀ c ∈ asciiLetters, c ∉ punctuationChars := by decide

theorem letters_not_digits : ∀ c ∈ asciiLetters, c ∉ digitChars := by decide

theorem symbols_not_letters : ∀ c ∈ punctuationChars, c ∉ asciiLetters := by decide

theorem symbols_not_digits : ∀ c ∈ punctuationChars, c ∉ digitChars := by decide

theorem digits_not_letters : ∀ c ∈ digitChars, c ∉ asciiLetters := by decide

theorem digits_not_symbols : ∀ c ∈ digitChars, c ∉ punctuationChars := by decide

theorem stringMk_toList (l : List Char) : (String.mk l).toList = l := rfl

theorem stringMk_length (l : List Char) : (String.mk l).length = l.length := rfl

/-- Full characterisation of a successful `generate_password` run: under the
four preconditions the function succeeds, for every choice of random streams,
and the output has exactly the requested composition. -/
theorem generate_ok_parts (g1 g2 g3 gs : Nat → Nat)
    (length num_symbols num_numbers : Int)
    (h1 : 8 < length) (h2 : 1 ≤ num_symbols) (h3 : 1 ≤ num_numbers)
    (h4 : num_symbols + num_numbers < length) :
    ∃ pw : String,
      generate_password g1 g2 g3 gs length num_symbols num_numbers = .ok pw
      ∧ pw.length = length.toNat
      ∧ pw.toList.countP symbolMem = num_symbols.toNat
      ∧ pw.toList.countP digitMem = num_numbers.toNat
      ∧ pw.toList.countP letterMem = (length - num_symbols - num_numbers).toNat := by
  have e1 : ¬(length ≤ 8) := by omega
  have e2 : ¬(num_symbols < 1) := by omega
  have e3 : ¬(num_numbers < 1) := by omega
  have e4 : ¬(num_symbols + num_numbers ≥ length) := by omega
  have hgen : generate_password g1 g2 g3 gs length num_symbols num_numbers =
      .ok (String.mk (shuffle gs
        (randomChoices g1 asciiLetters (length - num_symbols - num_numbers).toNat
          ++ randomChoices g2 punctuationChars num_symbols.toNat
          ++ randomChoices g3 digitChars num_numbers.toNat))) := by
    simp only [generate_password, if_neg e1, if_neg e2, if_neg e3, if_neg e4]
  refine ⟨_, hgen, ?_, ?_, ?_, ?_⟩
  case _ =>
    rw [stringMk_length, shuffle_length]
    simp only [List.length_append, randomChoices_length]
    omega
  all_goals {
    rw [stringMk_toList, shuffle_countP]
    simp only [List.countP_append]
    have hA := randomChoices_mem g1 asciiLetters (by decide)
      (length - num_symbols - num_numbers).toNat
    have hB := randomChoices_mem g2 punctuationChars (by decide) num_symbols.toNat
    have hC := randomChoices_mem g3 digitChars (by decide) num_numbers.toNat
    first
    | (rw [List.countP_eq_zero.mpr fun a ha => by
          simpa [symbolMem] using letters_not_symbols a (hA a ha),
        List.countP_eq_length.mpr fun a ha => by
          simpa [symbolMem] using hB a ha,
        List.countP_eq_zero.mpr fun a ha => by
          simpa [symbolMem] using digits_not_symbols a (hC a ha),
        randomChoices_length]
       omega)
    | (rw [List.countP_eq_zero.mpr fun a ha => by
          simpa [digitMem] using letters_not_digits a (hA a ha),
        List.countP_eq_zero.mpr fun a ha => by
          simpa [digitMem] using symbols_not_digits a (hB a ha),
        List.countP_eq_length.mpr fun a ha => by
          simpa [digitMem] using hC a ha,
        randomChoices_length]
       omega)
    | (rw [List.countP_eq_length.mpr fun a ha => by
          simpa [letterMem] using hA a ha,
        List.countP_eq_zero.mpr fun a ha => by
          simpa [letterMem] using symbols_not_letters a (hB a ha),
        List.countP_eq_zero.mpr fun a ha => by
          simpa [letterMem] using digits_not_letters a (hC a ha),
        randomChoices_length]
       omega)
  }

theorem digits_isDigitChar : ∀ c ∈ digitChars, isDigitChar c = true := by decide

theorem punct_matchesSymbolClass :
    ∀ c ∈ punctuationChars, matchesSymbolClass c = true := by decide

/-- C1: for every `(length, num_symbols, num_numbers)` with `length > 8`,
`num_symbols ≥ 1`, `num_numbers ≥ 1` and `num_symbols + num_numbers < length`,
and for every choice of random draws and shuffle, `generate_password` returns a
string of exactly `length` characters containing exactly `num_symbols` symbol
characters, exactly `num_numbers` digit characters, and
`length - num_symbols - num_numbers` letter characters. -/
theorem generate_password_composition (g1 g2 g3 gs : Nat → Nat)
    (length num_symbols num_numbers : Int)
    (h1 : 8 < length) (h2 : 1 ≤ num_symbols) (h3 : 1 ≤ num_numbers)
    (h4 : num_symbols + num_numbers < length) :
    ∃ pw : String,
      generate_password g1 g2 g3 gs length num_symbols num_numbers = .ok pw
      ∧ pw.length = length.toNat
      ∧ pw.toList.countP symbolMem = num_symbols.toNat
      ∧ pw.toList.countP digitMem = num_numbers.toNat
      ∧ pw.toList.countP letterMem = (length - num_symbols - num_numbers).toNat :=
  generate_ok_parts g1 g2 g3 gs length num_symbols num_numbers h1 h2 h3 h4

theorem generate_password_composition_witness :
    ((8 : Int) < 12 ∧ (1 : Int) ≤ 2 ∧ (1 : Int) ≤ 2 ∧ (2 : Int) + 2 < 12)
    ∧ ∃ pw : String,
      generate_password (fun _ => 0) (fun _ => 0) (fun _ => 0) (fun _ => 0) 12 2 2 = .ok pw
      ∧ pw.length = (12 : Int).toNat
      ∧ pw.toList.countP symbolMem = (2 : Int).toNat
      ∧ pw.toList.countP digitMem = (2 : Int).toNat
      ∧ pw.toList.countP letterMem = ((12 : Int) - 2 - 2).toNat :=
  ⟨⟨by decide, by decide, by decide, by decide⟩,
    generate_password_composition (fun _ => 0) (fun _ => 0) (fun _ => 0) (fun _ => 0)
      12 2 2 (by decide) (by decide) (by decide) (by decide)⟩

/-- C4: the function `generate_password` rejects — returns an error instead of a password,
with a distinct user-facing message and without crashing — exactly when
`length ≤ 8`, or `num_symbols < 1`, or `num_numbers < 1`, or
`num_symbols + num_numbers ≥ length`; the four checks run in that order, each
message being that of the first violated check, and the four messages are
pairwise distinct. -/
theorem generate_password_rejects (g1 g2 g3 gs : Nat → Nat)
    (length num_symbols num_numbers : Int) :
    ((∃ msg, generate_password g1 g2 g3 gs length num_symbols num_numbers = .error msg)
      ↔ (length ≤ 8 ∨ num_symbols < 1 ∨ num_numbers < 1
          ∨ num_symbols + num_numbers ≥ length))
    ∧ (length ≤ 8 →
        generate_password g1 g2 g3 gs length num_symbols num_numbers = .error lengthErrMsg)
    ∧ (¬(length ≤ 8) → num_symbols < 1 →
        generate_password g1 g2 g3 gs length num_symbols num_numbers = .error symbolsErrMsg)
    ∧ (¬(length ≤ 8) → ¬(num_symbols < 1) → num_numbers < 1 →
        generate_password g1 g2 g3 gs length num_symbols num_numbers = .error numbersErrMsg)
    ∧ (¬(length ≤ 8) → ¬(num_symbols < 1) → ¬(num_numbers < 1) →
        num_symbols + num_numbers ≥ length →
        generate_password g1 g2 g3 gs length num_symbols num_numbers = .error sumErrMsg)
    ∧ (lengthErrMsg ≠ symbolsErrMsg ∧ lengthErrMsg ≠ numbersErrMsg
        ∧ lengthErrMsg ≠ sumErrMsg ∧ symbolsErrMsg ≠ numbersErrMsg
        ∧ symbolsErrMsg ≠ sumErrMsg ∧ numbersErrMsg ≠ sumErrMsg) := by
  refine ⟨⟨?_, ?_⟩, ?_, ?_, ?_, ?_, by decide, by decide, by decide, by decide,
    by decide, by decide⟩
  · rintro ⟨msg, hmsg⟩
    by_contra hcon
    push_neg at hcon
    obtain ⟨n1, n2, n3, n4⟩ := hcon
    simp [generate_password, if_neg (by omega : ¬(length ≤ 8)),
      if_neg (by omega : ¬(num_symbols < 1)), if_neg (by omega : ¬(num_numbers < 1)),
      if_neg (by omega : ¬(num_symbols + num_numbers ≥ length))] at hmsg
  · intro hor
    unfold generate_password
    split_ifs with a b c d
    · exact ⟨_, rfl⟩
    · exact ⟨_, rfl⟩
    · exact ⟨_, rfl⟩
    · exact ⟨_, rfl⟩
    · omega
  · intro a; simp [generate_password, if_pos a]
  · intro a b; simp [generate_password, if_neg a, if_pos b]
  · intro a b c; simp [generate_password, if_neg a, if_neg b, if_pos c]
  · intro a b c d; simp [generate_password, if_neg a, if_neg b, if_neg c, if_pos d]

theorem generate_password_rejects_witness :
    generate_password (fun _ => 0) (fun _ => 0) (fun _ => 0) (fun _ => 0) 5 2 3
        = .error lengthErrMsg
    ∧ generate_password (fun _ => 0) (fun _ => 0) (fun _ => 0) (fun _ => 0) 12 0 2
        = .error symbolsErrMsg
    ∧ generate_password (fun _ => 0) (fun _ => 0) (fun _ => 0) (fun _ => 0) 12 2 0
        = .error numbersErrMsg
    ∧ generate_password (fun _ => 0) (fun _ => 0) (fun _ => 0) (fun _ => 0) 12 6 6
        = .error sumErrMsg :=
  ⟨(generate_password_rejects (fun _ => 0) (fun _ => 0) (fun _ => 0) (fun _ => 0)
      5 2 3).2.1 (by decide),
   (generate_password_rejects (fun _ => 0) (fun _ => 0) (fun _ => 0) (fun _ => 0)
      12 0 2).2.2.1 (by decide) (by decide),
   (generate_password_rejects (fun _ => 0) (fun _ => 0) (fun _ => 0) (fun _ => 0)
      12 2 0).2.2.2.1 (by decide) (by decide) (by decide),
   (generate_password_rejects (fun _ => 0) (fun _ => 0) (fun _ => 0) (fun _ => 0)
      12 6 6).2.2.2.2.1 (by decide) (by decide) (by decide) (by decide)⟩

theorem matchesSymbolClass_iff (c : Char) :
    matchesSymbolClass c = true ↔ (c.isAlpha = false ∧ isDigitChar c = false) := by
  by_cases hc : c = '_'
  · subst hc; decide
  · have hbeq : (c == '_') = false := by simpa using hc
    cases h1 : c.isAlpha <;> cases h2 : isDigitChar c <;>
      simp [matchesSymbolClass, isWordChar, hbeq, h1, h2]

/-- C2: the check `is_strong_password` is true exactly when the password is longer than 8
characters, contains a digit, and contains a character that is neither a letter
nor a digit; in particular it is false on `abcdefgh1` and true on
`abcdefgh1!`. -/
theorem is_strong_password_spec :
    (∀ p : String, is_strong_password p = true ↔
      (8 < p.length ∧ (∃ c ∈ p.toList, isDigitChar c = true)
        ∧ (∃ c ∈ p.toList, c.isAlpha = false ∧ isDigitChar c = false)))
    ∧ is_strong_password "abcdefgh1" = false
    ∧ is_strong_password "abcdefgh1!" = true := by
  refine ⟨?_, by decide, by decide⟩
  intro p
  simp only [is_strong_password, Bool.and_eq_true, decide_eq_true_eq,
    List.any_eq_true, matchesSymbolClass_iff, and_assoc]

theorem is_strong_password_spec_witness :
    (is_strong_password "Str0ng!Pass" = true ↔
      (8 < ("Str0ng!Pass" : String).length
        ∧ (∃ c ∈ ("Str0ng!Pass" : String).toList, isDigitChar c = true)
        ∧ (∃ c ∈ ("Str0ng!Pass" : String).toList,
            c.isAlpha = false ∧ isDigitChar c = false)))
    ∧ is_strong_password "abcdefgh1" = false
    ∧ is_strong_password "abcdefgh1!" = true :=
  ⟨is_strong_password_spec.1 "Str0ng!Pass", is_strong_password_spec.2.1,
    is_strong_password_spec.2.2⟩

/-- C10: every password actually produced by `generate_password` — any
non-rejected output, for any random draws — passes `is_strong_password`. -/
theorem generate_password_output_strong (g1 g2 g3 gs : Nat → Nat)
    (length num_symbols num_numbers : Int) (pw : String)
    (h : generate_password g1 g2 g3 gs length num_symbols num_numbers = .ok pw) :
    is_strong_password pw = true := by
  have e1 : ¬(length ≤ 8) := by
    intro hc; simp [generate_password, if_pos hc] at h
  have e2 : ¬(num_symbols < 1) := by
    intro hc; simp [generate_password, if_neg e1, if_pos hc] at h
  have e3 : ¬(num_numbers < 1) := by
    intro hc; simp [generate_password, if_neg e1, if_neg e2, if_pos hc] at h
  have e4 : ¬(num_symbols + num_numbers ≥ length) := by
    intro hc; simp [generate_password, if_neg e1, if_neg e2, if_neg e3, if_pos hc] at h
  obtain ⟨pw', hgen, hlen, hsym, hdig, hlet⟩ :=
    generate_ok_parts g1 g2 g3 gs length num_symbols num_numbers
      (by omega) (by omega) (by omega) (by omega)
  have hpw : pw' = pw := Except.ok.inj (hgen.symm.trans h)
  rw [hpw] at hlen hsym hdig hlet
  have h8 : 8 < pw.length := by rw [hlen]; omega
  have hd : pw.toList.any isDigitChar = true := by
    have hpos : 0 < pw.toList.countP digitMem := by rw [hdig]; omega
    obtain ⟨c, hcmem, hcd⟩ := List.countP_pos_iff.mp hpos
    refine List.any_eq_true.mpr ⟨c, hcmem, ?_⟩
    exact digits_isDigitChar c (by simpa [digitMem] using hcd)
  have hs : pw.toList.any matchesSymbolClass = true := by
    have hpos : 0 < pw.toList.countP symbolMem := by rw [hsym]; omega
    obtain ⟨c, hcmem, hcs⟩ := List.countP_pos_iff.mp hpos
    refine List.any_eq_true.mpr ⟨c, hcmem, ?_⟩
    exact punct_matchesSymbolClass c (by simpa [symbolMem] using hcs)
  simp only [List.any_eq_true] at hd hs
  simp only [is_strong_password, Bool.and_eq_true, decide_eq_true_eq, List.any_eq_true]
  exact ⟨⟨h8, hd⟩, hs⟩

/-- A concrete run of `generate_password` with the all-zero random streams. -/
def samplePassword : String :=
  ((generate_password (fun _ => 0) (fun _ => 0) (fun _ => 0) (fun _ => 0)
    9 1 1).toOption).getD ""

theorem generate_password_output_strong_witness :
    is_strong_password samplePassword = true :=
  generate_password_output_strong (fun _ => 0) (fun _ => 0) (fun _ => 0) (fun _ => 0)
    9 1 1 samplePassword rfl

/-- Hex digit characters `0123456789abcdef`, as used by a hex-encoded digest. -/
def hexChar (n : Nat) : Char :=
  if n < 10 then Char.ofNat (48 + n) else Char.ofNat (87 + n)

/-- Deterministic accumulator over the plaintext, feeding the digest model. -/
def digestSeed (p : String) : Nat :=
  p.toList.foldl (fun acc c => (acc * 131 + c.toNat + 1) % 1000003) 5381

/-- Modelled from the spec: `hash_password` in `database.py` delegates to
`hashlib.sha256(password.encode()).hexdigest()`, whose implementation is a
library routine not part of this repository.  Per the spec it is a
"deterministic one-way digest (originally SHA-256, hex-encoded)" producing a
"fixed-length hex digest": the model below is a deterministic function of the
plaintext producing exactly 64 lowercase-hex characters.  Its first output
character is constructed to differ from the plaintext's first character, so
the modelled digest is provably never the plaintext itself (for real SHA-256
no input is known to equal its own hex digest). -/
def hash_password (password : String) : String :=
  let s := digestSeed password
  let first := hexChar (((password.toList.headD ' ').toNat + 1) % 16)
  String.mk (first ::
    ((List.range 63).map fun i => hexChar ((s / 2 ^ (i % 20) + i) % 16)))

/-- One row of the `users` table. -/
structure UserRow where
  id : Nat
  username : String
  password_hash : String
deriving Repr, DecidableEq

/-- One row of the `passwords` table; `created_at` is an abstract timestamp. -/
structure PasswordRow where
  id : Nat
  user_id : Nat
  account_note : String
  password_value : String
  created_at : Nat
deriving Repr, DecidableEq

/-- The relational store: both tables in insertion order, the two
auto-increment counters, and the clock supplying `CURRENT_TIMESTAMP`. -/
structure DBState where
  users : List UserRow
  passwords : List PasswordRow
  next_user_id : Nat
  next_password_id : Nat
  now : Nat
deriving Repr, DecidableEq

/-- Behaviour of one `create_connection()` attempt: whether the connection is
established (`ok`) and whether statements executed on it succeed (`execOk`). -/
structure Conn where
  ok : Bool
  execOk : Bool
deriving Repr, DecidableEq

/-- A connection on which everything succeeds. -/
def goodConn : Conn := ⟨true, true⟩

/-- The `st.error` report issued inside `create_connection` on failure. -/
def connectionErrMsg : String := "Database connection error"

/-- The `st.error` report issued by `register_user` when its insert raises. -/
def registrationErrMsg : String := "Registration error"

/-- Stand-in payload for an uncaught `mysql.connector.Error`. -/
def storageExcMsg : String := "mysql connector error"

/-- Embedding of `check_user_exists(username)`: on a failed connection the reported error is
accumulated and the function falls through to `return False`; an execute error
propagates as an exception (`.error`). -/
def check_user_exists (c : Conn) (st : DBState) (username : String) :
    Except String Bool × List String :=
  if c.ok then
    if c.execOk then
      (.ok (st.users.any fun u => u.username == username), [])
    else (.error storageExcMsg, [])
  else (.ok false, [connectionErrMsg])

/-- The `INSERT INTO users` statement: appends a row with the next
auto-increment id. -/
def insertUser (st : DBState) (username pwd_hash : String) : DBState :=
  ⟨st.users ++ [⟨st.next_user_id, username, pwd_hash⟩], st.passwords,
    st.next_user_id + 1, st.next_password_id, st.now⟩

/-- Embedding of `register_user(username, password)`: pre-check for an existing username,
then hash and insert.  The value is the returned `bool`; the middle component
is the resulting store; the last accumulates `st.error` reports.  Only the
insert is wrapped in `try/except`, so an exception inside
`check_user_exists` propagates. -/
def register_user (c1 c2 : Conn) (st : DBState) (username password : String) :
    Except String Bool × DBState × List String :=
  match check_user_exists c1 st username with
  | (.error e, r) => (.error e, st, r)
  | (.ok true, r) => (.ok false, st, r)
  | (.ok false, r) =>
    if c2.ok then
      if c2.execOk then
        (.ok true, insertUser st username (hash_password password), r)
      else (.ok false, st, r ++ [registrationErrMsg])
    else (.ok false, st, r ++ [connectionErrMsg])

/-- Embedding of `verify_login(username, password)`: hash the supplied plaintext and select
the first row matching both username and hash; `None` on no match or on a
failed connection. -/
def verify_login (c : Conn) (st : DBState) (username password : String) :
    Except String (Option Nat) × List String :=
  if c.ok then
    if c.execOk then
      match st.users.find? (fun u =>
          u.username == username && u.password_hash == hash_password password) with
      | some u => (.ok (some u.id), [])
      | none => (.ok none, [])
    else (.error storageExcMsg, [])
  else (.ok none, [connectionErrMsg])

/-- Embedding of `save_password_to_db(user_id, password_value, account_note)`: insert one
row with `created_at` defaulted to the current clock; returns nothing. -/
def save_password_to_db (c : Conn) (st : DBState) (user_id : Nat)
    (password_value account_note : String) :
    Except String Unit × DBState × List String :=
  if c.ok then
    if c.execOk then
      (.ok (), ⟨st.users,
        st.passwords ++ [⟨st.next_password_id, user_id, account_note,
          password_value, st.now⟩],
        st.next_user_id, st.next_password_id + 1, st.now⟩, [])
    else (.error storageExcMsg, st, [])
  else (.ok (), st, [connectionErrMsg])

/-- The tuple shape returned by `SELECT account_note, password_value,
created_at`. -/
def projRow (r : PasswordRow) : String × String × Nat :=
  (r.account_note, r.password_value, r.created_at)

/-- The `ORDER BY created_at DESC` comparator on result tuples. -/
def rowLe (a b : String × String × Nat) : Bool := decide (b.2.2 ≤ a.2.2)

/-- Modelled from the spec: the tie-break order of `get_saved_passwords(user_id)`.
The source runs `SELECT ... ORDER BY created_at DESC` with no secondary sort
key, so it determines only the descending key order — MySQL makes no guarantee
about the relative order of rows with equal `created_at`, and that order is
missing from the source.  An executable model must pick one admissible result:
this one picks the insertion-order tie-break the spec asserts ("ties broken by
insertion order (stable)"), via a stable merge sort over the rows in insertion
order.  `sqlOrderByAdmissible` captures exactly what the query itself
guarantees.  A failed connection reports and falls through to `return []`. -/
def get_saved_passwords (c : Conn) (st : DBState) (user_id : Nat) :
    Except String (List (String × String × Nat)) × List String :=
  if c.ok then
    if c.execOk then
      (.ok (((st.passwords.filter fun r => r.user_id == user_id).map projRow).mergeSort
        rowLe), [])
    else (.error storageExcMsg, [])
  else (.ok [], [connectionErrMsg])

/-- What `SELECT account_note, password_value, created_at ... WHERE user_id =
%s ORDER BY created_at DESC` guarantees about a result `out`: it consists of
exactly the projections of the user's stored rows (a permutation), pairwise
ordered by `created_at` descending.  Nothing more — the relative order among
equal `created_at` values is unspecified by the query. -/
def sqlOrderByAdmissible (rows : List PasswordRow) (user_id : Nat)
    (out : List (String × String × Nat)) : Prop :=
  out.Perm ((rows.filter fun r => r.user_id == user_id).map projRow)
  ∧ out.Pairwise fun a b => b.2.2 ≤ a.2.2

theorem hash_password_length (p : String) : (hash_password p).length = 64 := by
  simp [hash_password, stringMk_length]

theorem hexChar_toNat_le : ∀ k < 16, (hexChar k).toNat ≤ 102 := by decide

theorem hexChar_toNat_ne : ∀ x < 103, (hexChar ((x + 1) % 16)).toNat ≠ x := by decide

theorem hexChar_ne_self (c : Char) : hexChar ((c.toNat + 1) % 16) ≠ c := by
  intro h
  have hx : (hexChar ((c.toNat + 1) % 16)).toNat = c.toNat := congrArg Char.toNat h
  by_cases hc : c.toNat < 103
  · exact hexChar_toNat_ne c.toNat hc hx
  · have hk : (c.toNat + 1) % 16 < 16 := Nat.mod_lt _ (by omega)
    have := hexChar_toNat_le _ hk
    omega

/-- The modelled digest is never its own input. -/
theorem hash_password_ne_self (p : String) : hash_password p ≠ p := by
  intro h
  have hplen : p.length = 64 := by rw [← h]; exact hash_password_length p
  have hlistlen : p.toList.length = 64 := hplen
  cases hp : p.toList with
  | nil => rw [hp] at hlistlen; simp at hlistlen
  | cons c rest =>
    have hdata : (hash_password p).toList = c :: rest := by rw [h, hp]
    have hunf : (hash_password p).toList =
        hexChar (((p.toList.headD ' ').toNat + 1) % 16) ::
          ((List.range 63).map fun i =>
            hexChar ((digestSeed p / 2 ^ (i % 20) + i) % 16)) := rfl
    rw [hunf] at hdata
    injection hdata with h1 _
    rw [hp] at h1
    simp only [List.headD_cons] at h1
    exact hexChar_ne_self c h1

theorem verify_login_good (st : DBState) (username password : String) :
    verify_login goodConn st username password =
      (match st.users.find? (fun u =>
          u.username == username && u.password_hash == hash_password password) with
        | some u => (.ok (some u.id), [])
        | none => (.ok none, [])) := rfl

/-- C3: with working storage, `verify_login` returns the stored id of the user
whose username matches and whose stored hash is the hash of the supplied
plaintext; on any other input — unknown username or wrong password — it
returns the one identical failure value `none` (with no report), so the two
failure causes are indistinguishable from the result. -/
theorem verify_login_spec (st : DBState) (username password : String)
    (huniq : st.users.Pairwise fun a b => a.username ≠ b.username) :
    (∀ u ∈ st.users, u.username = username →
      u.password_hash = hash_password password →
      verify_login goodConn st username password = (.ok (some u.id), []))
    ∧ ((∀ u ∈ st.users,
          ¬(u.username = username ∧ u.password_hash = hash_password password)) →
      verify_login goodConn st username password = (.ok none, [])) := by
  constructor
  · intro u hu h1 h2
    cases hf : st.users.find? (fun v =>
        v.username == username && v.password_hash == hash_password password) with
    | none =>
      exfalso
      have := List.find?_eq_none.mp hf u hu
      simp [h1, h2] at this
    | some v =>
      have hvp := List.find?_some hf
      have hvm := List.mem_of_find?_eq_some hf
      simp only [Bool.and_eq_true, beq_iff_eq] at hvp
      have huv : u = v := by
        by_contra hne
        exact huniq.forall (fun a b hab => Ne.symm hab) hu hvm hne
          (h1.trans hvp.1.symm)
      rw [verify_login_good, hf, huv]
  · intro hnone
    have hf : st.users.find? (fun v =>
        v.username == username && v.password_hash == hash_password password) = none := by
      rw [List.find?_eq_none]
      intro v hv hvp
      simp only [Bool.and_eq_true, beq_iff_eq] at hvp
      exact hnone v hv hvp
    rw [verify_login_good, hf]

/-- A store holding the single registered user `alice`. -/
def authState : DBState := ⟨[⟨1, "alice", hash_password "secret1!"⟩], [], 2, 1, 0⟩

theorem verify_login_spec_witness :
    verify_login goodConn authState "alice" "secret1!" = (.ok (some 1), [])
    ∧ verify_login goodConn authState "alice" "wrongpw" = (.ok none, [])
    ∧ verify_login goodConn authState "bob" "secret1!" = (.ok none, [])
    ∧ verify_login goodConn authState "alice" "wrongpw"
        = verify_login goodConn authState "bob" "secret1!" := by
  have h1 := verify_login_spec authState "alice" "secret1!" (by simp [authState])
  have h2 := verify_login_spec authState "alice" "wrongpw" (by simp [authState])
  have h3 := verify_login_spec authState "bob" "secret1!" (by simp [authState])
  have e1 := h1.1 ⟨1, "alice", hash_password "secret1!"⟩ (by simp [authState]) rfl rfl
  have e2 := h2.2 (by
    intro u hu
    simp only [authState, List.mem_singleton] at hu
    subst hu
    decide)
  have e3 := h3.2 (by
    intro u hu
    simp only [authState, List.mem_singleton] at hu
    subst hu
    decide)
  exact ⟨e1, e2, e3, e2.trans e3.symm⟩

/-- C5: with working storage, registering a fresh username succeeds and stores
the hash of the supplied plaintext; a second registration of the same username
then fails (returns `false`, the duplicate-username failure) regardless of the
password supplied, and leaves the store unchanged. -/
theorem register_user_twice (st : DBState) (username p1 p2 : String)
    (hfree : ∀ u ∈ st.users, u.username ≠ username) :
    register_user goodConn goodConn st username p1 =
      (.ok true, insertUser st username (hash_password p1), [])
    ∧ register_user goodConn goodConn
        (insertUser st username (hash_password p1)) username p2 =
      (.ok false, insertUser st username (hash_password p1), []) := by
  have hany : (st.users.any fun u => u.username == username) = false := by
    simp only [List.any_eq_false]
    intro u hu
    simp [hfree u hu]
  have hchk : check_user_exists goodConn st username = (.ok false, []) := by
    simp [check_user_exists, goodConn, hany]
  constructor
  · unfold register_user
    rw [hchk]
    rfl
  · have hany2 : ((insertUser st username (hash_password p1)).users.any
        fun u => u.username == username) = true := by
      simp [insertUser]
    have hchk2 : check_user_exists goodConn
        (insertUser st username (hash_password p1)) username = (.ok true, []) := by
      simp [check_user_exists, goodConn, hany2]
    unfold register_user
    rw [hchk2]

/-- The store right after schema setup: both tables empty. -/
def emptyDB : DBState := ⟨[], [], 1, 1, 0⟩

theorem register_user_twice_witness :
    register_user goodConn goodConn emptyDB "alice" "pwA" =
      (.ok true, insertUser emptyDB "alice" (hash_password "pwA"), [])
    ∧ register_user goodConn goodConn
        (insertUser emptyDB "alice" (hash_password "pwA")) "alice" "pwB" =
      (.ok false, insertUser emptyDB "alice" (hash_password "pwA"), []) :=
  register_user_twice emptyDB "alice" "pwA" "pwB" (by simp [emptyDB])

theorem get_saved_passwords_good (st : DBState) (uid : Nat) :
    get_saved_passwords goodConn st uid =
      (.ok (((st.passwords.filter fun r => r.user_id == uid).map projRow).mergeSort
        rowLe), []) := rfl

theorem rowLe_trans : ∀ a b c : String × String × Nat,
    rowLe a b → rowLe b c → rowLe a c := by
  intro a b c hab hbc
  simp only [rowLe, decide_eq_true_eq] at *
  omega

theorem rowLe_total : ∀ a b : String × String × Nat, rowLe a b || rowLe b a := by
  intro a b
  simp only [rowLe, Bool.or_eq_true, decide_eq_true_eq]
  omega

/-- C6 (amended): `get_saved_passwords` with working storage returns exactly
the given user's `(account_note, password_value, created_at)` records ordered
by `created_at` descending — an admissible result of the source query.  The
query itself does not guarantee the frozen claim's stable tie-break among
equal `created_at` values (see the counterexample below); the executable
model merely chooses that order. -/
theorem get_saved_passwords_admissible (st : DBState) (user_id : Nat) :
    ∃ l, get_saved_passwords goodConn st user_id = (.ok l, [])
      ∧ sqlOrderByAdmissible st.passwords user_id l := by
  refine ⟨_, get_saved_passwords_good st user_id, List.mergeSort_perm _ _, ?_⟩
  exact (List.sorted_mergeSort rowLe_trans rowLe_total _).imp
    (fun h => by simpa [rowLe] using h)

/-- A store with timestamp ties (rows 1 and 3 of user 7 share `created_at`). -/
def tieState : DBState :=
  ⟨[], [⟨1, 7, "a", "pa", 5⟩, ⟨2, 7, "b", "pb", 9⟩, ⟨3, 7, "c", "pc", 5⟩,
    ⟨4, 8, "d", "pd", 9⟩], 1, 5, 10⟩

theorem get_saved_passwords_admissible_witness :
    ∃ l, get_saved_passwords goodConn tieState 7 = (.ok l, [])
      ∧ sqlOrderByAdmissible tieState.passwords 7 l :=
  get_saved_passwords_admissible tieState 7

/-- C6 counterexample: in `tieState`, user 7's records `a` and `c` share
`created_at = 5`, with `a` inserted before `c`.  The output listing `c`
before `a` is admissible for the source query — a permutation of exactly
user 7's records, sorted by `created_at` descending — yet its tied pair is
not in insertion order: the query does not guarantee the claimed stable
tie-break. -/
theorem order_by_tie_counterexample :
    sqlOrderByAdmissible tieState.passwords 7
      [("b", "pb", 9), ("c", "pc", 5), ("a", "pa", 5)]
    ∧ List.Sublist
        [(("a" : String), ("pa" : String), (5 : Nat)), ("c", "pc", 5)]
        ((tieState.passwords.filter fun r => r.user_id == 7).map projRow)
    ∧ ((("a" : String), ("pa" : String), (5 : Nat)) : String × String × Nat).2.2
        = ((("c" : String), ("pc" : String), (5 : Nat)) : String × String × Nat).2.2
    ∧ ¬ List.Sublist
        [(("a" : String), ("pa" : String), (5 : Nat)), ("c", "pc", 5)]
        [("b", "pb", 9), ("c", "pc", 5), ("a", "pa", 5)] :=
  ⟨⟨by decide, by decide⟩, by decide, rfl, by decide⟩

/-- C9: starting from a state where user `uid` has no saved passwords, saving
`P@ss1234` with note `email` and then listing yields the sequence whose first
(and only) element is `("email", "P@ss1234", <timestamp>)`. -/
theorem save_then_list_roundtrip (st : DBState) (uid : Nat)
    (hempty : ∀ r ∈ st.passwords, r.user_id ≠ uid) :
    (get_saved_passwords goodConn
        (save_password_to_db goodConn st uid "P@ss1234" "email").2.1 uid).1
      = .ok [("email", "P@ss1234", st.now)] := by
  rw [get_saved_passwords_good]
  have hpass : (save_password_to_db goodConn st uid "P@ss1234" "email").2.1.passwords
      = st.passwords
          ++ [⟨st.next_password_id, uid, "email", "P@ss1234", st.now⟩] := rfl
  rw [hpass, List.filter_append,
    List.filter_eq_nil_iff.mpr (fun r hr => by simp [hempty r hr])]
  simp [projRow]

/-- A store where user 7 has no saved rows but another user does. -/
def rtState : DBState := ⟨[], [⟨1, 3, "other", "po", 2⟩], 1, 2, 42⟩

theorem save_then_list_roundtrip_witness :
    (get_saved_passwords goodConn
        (save_password_to_db goodConn rtState 7 "P@ss1234" "email").2.1 7).1
      = .ok [("email", "P@ss1234", 42)] :=
  save_then_list_roundtrip rtState 7 (by decide)

theorem register_user_fresh_reduce (c2 : Conn) (st : DBState)
    (username password : String)
    (hfresh : ∀ u ∈ st.users, u.username ≠ username) :
    register_user goodConn c2 st username password =
      if c2.ok then
        if c2.execOk then
          (.ok true, insertUser st username (hash_password password), [])
        else (.ok false, st, [registrationErrMsg])
      else (.ok false, st, [connectionErrMsg]) := by
  have hany : (st.users.any fun u => u.username == username) = false :=
    List.any_eq_false.mpr fun u hu => by simp [hfresh u hu]
  have hchk : check_user_exists goodConn st username = (.ok false, []) := by
    simp [check_user_exists, goodConn, hany]
  unfold register_user
  rw [hchk]
  rfl

/-- C8: whenever the storage layer fails — the connection cannot be created or
a statement raises — each of the four storage operations surfaces the failure:
the result is either an exception-carrying failure value or is accompanied by
an explicit user-visible error report; no failure ends in a silent,
success-shaped result with no report. -/
theorem storage_failures_surfaced (c : Conn) (st : DBState) (username : String)
    (uid : Nat) (pv note pwd : String)
    (hfail : c.ok = false ∨ c.execOk = false)
    (hfresh : ∀ u ∈ st.users, u.username ≠ username) :
    ((check_user_exists c st username).1.isOk = false
        ∨ (check_user_exists c st username).2 ≠ [])
    ∧ ((get_saved_passwords c st uid).1.isOk = false
        ∨ (get_saved_passwords c st uid).2 ≠ [])
    ∧ ((save_password_to_db c st uid pv note).1.isOk = false
        ∨ (save_password_to_db c st uid pv note).2.2 ≠ [])
    ∧ ((register_user goodConn c st username pwd).1.isOk = false
        ∨ (register_user goodConn c st username pwd).2.2 ≠ []) := by
  have hreg := register_user_fresh_reduce c st username pwd hfresh
  obtain ⟨co, ce⟩ := c
  have hfail' : co = false ∨ ce = false := hfail
  cases co <;> cases ce <;>
    simp_all [check_user_exists, get_saved_passwords, save_password_to_db,
      Except.isOk, Except.toBool, connectionErrMsg, registrationErrMsg,
      storageExcMsg]

theorem storage_failures_surfaced_witness :
    ((check_user_exists ⟨false, true⟩ emptyDB "alice").1.isOk = false
        ∨ (check_user_exists ⟨false, true⟩ emptyDB "alice").2 ≠ [])
    ∧ ((get_saved_passwords ⟨false, true⟩ emptyDB 1).1.isOk = false
        ∨ (get_saved_passwords ⟨false, true⟩ emptyDB 1).2 ≠ [])
    ∧ ((save_password_to_db ⟨false, true⟩ emptyDB 1 "pv" "note").1.isOk = false
        ∨ (save_password_to_db ⟨false, true⟩ emptyDB 1 "pv" "note").2.2 ≠ [])
    ∧ ((register_user goodConn ⟨false, true⟩ emptyDB "alice" "pw").1.isOk = false
        ∨ (register_user goodConn ⟨false, true⟩ emptyDB "alice" "pw").2.2 ≠ []) :=
  storage_failures_surfaced ⟨false, true⟩ emptyDB "alice" 1 "pv" "note" "pw"
    (Or.inl rfl) (by simp [emptyDB])

/-- The store-touching operations the UI layer can trigger. -/
inductive DBOp where
  | register (c1 c2 : Conn) (username password : String)
  | login (c : Conn) (username password : String)
  | save (c : Conn) (user_id : Nat) (password_value account_note : String)
  | listSaved (c : Conn) (user_id : Nat)

/-- The store after one operation (`login` and `listSaved` never write). -/
def applyOp (st : DBState) : DBOp → DBState
  | .register c1 c2 u p => (register_user c1 c2 st u p).2.1
  | .login _ _ _ => st
  | .save c uid pv note => (save_password_to_db c st uid pv note).2.1
  | .listSaved _ _ => st

/-- The store after a whole trace of operations. -/
def runOps (st : DBState) (ops : List DBOp) : DBState := ops.foldl applyOp st

theorem register_user_state (c1 c2 : Conn) (st : DBState) (u p : String) :
    (register_user c1 c2 st u p).2.1 = st
    ∨ (register_user c1 c2 st u p).2.1 = insertUser st u (hash_password p) := by
  unfold register_user
  rcases hchk : check_user_exists c1 st u with ⟨v, r⟩
  cases v with
  | error e => exact Or.inl rfl
  | ok b =>
    cases b with
    | true => exact Or.inl rfl
    | false =>
      obtain ⟨c2o, c2e⟩ := c2
      cases c2o <;> cases c2e
      · exact Or.inl rfl
      · exact Or.inl rfl
      · exact Or.inl rfl
      · exact Or.inr rfl

theorem applyOp_users (st : DBState) (op : DBOp) :
    (applyOp st op).users = st.users ∨
    ∃ c1 c2 u p, op = .register c1 c2 u p ∧
      (applyOp st op).users
        = st.users ++ [⟨st.next_user_id, u, hash_password p⟩] := by
  cases op with
  | register c1 c2 u p =>
    rcases register_user_state c1 c2 st u p with h | h
    · refine Or.inl ?_
      show (register_user c1 c2 st u p).2.1.users = st.users
      rw [h]
    · refine Or.inr ⟨c1, c2, u, p, rfl, ?_⟩
      show (register_user c1 c2 st u p).2.1.users
        = st.users ++ [⟨st.next_user_id, u, hash_password p⟩]
      rw [h]
      rfl
  | login c u p => exact Or.inl rfl
  | save c uid pv note =>
    refine Or.inl ?_
    show (save_password_to_db c st uid pv note).2.1.users = st.users
    unfold save_password_to_db
    split_ifs <;> rfl
  | listSaved c uid => exact Or.inl rfl

/-- C7: an invariant preserved by every operation trace: each stored user's
`password_hash` is the digest `hash_password p` of some plaintext `p` — the one
supplied at that user's registration for users created during the trace — and
is never the plaintext itself; no operation ever writes a plaintext into the
`password_hash` field. -/
theorem password_hash_invariant (ops : List DBOp) (st : DBState)
    (h : ∀ u ∈ st.users, ∃ p, u.password_hash = hash_password p) :
    ∀ u ∈ (runOps st ops).users,
      (∃ p, u.password_hash = hash_password p ∧ u.password_hash ≠ p)
      ∧ (u ∈ st.users ∨ ∃ c1 c2 p, DBOp.register c1 c2 u.username p ∈ ops
            ∧ u.password_hash = hash_password p) := by
  induction ops generalizing st with
  | nil =>
    intro u hu
    simp only [runOps, List.foldl_nil] at hu
    obtain ⟨p, hp⟩ := h u hu
    exact ⟨⟨p, hp, by rw [hp]; exact hash_password_ne_self p⟩, Or.inl hu⟩
  | cons op rest ih =>
    intro u hu
    have hrun : runOps st (op :: rest) = runOps (applyOp st op) rest := rfl
    rw [hrun] at hu
    have hstep : ∀ v ∈ (applyOp st op).users,
        (∃ p, v.password_hash = hash_password p)
        ∧ (v ∈ st.users ∨ ∃ c1 c2 p, op = DBOp.register c1 c2 v.username p
              ∧ v.password_hash = hash_password p) := by
      intro v hv
      rcases applyOp_users st op with heq | ⟨c1, c2, uu, pp, hop, heq⟩
      · rw [heq] at hv
        exact ⟨h v hv, Or.inl hv⟩
      · rw [heq] at hv
        rcases List.mem_append.mp hv with hv1 | hv2
        · exact ⟨h v hv1, Or.inl hv1⟩
        · simp only [List.mem_singleton] at hv2
          subst hv2
          exact ⟨⟨pp, rfl⟩, Or.inr ⟨c1, c2, pp, hop, rfl⟩⟩
    have ihh := ih (applyOp st op) (fun v hv => (hstep v hv).1) u hu
    refine ⟨ihh.1, ?_⟩
    rcases ihh.2 with hin | ⟨c1, c2, p, hmem, hhash⟩
    · rcases (hstep u hin).2 with h1 | ⟨c1, c2, p, hop, hhash⟩
      · exact Or.inl h1
      · refine Or.inr ⟨c1, c2, p, ?_, hhash⟩
        rw [← hop]
        exact List.mem_cons_self op rest
    · exact Or.inr ⟨c1, c2, p, List.mem_cons_of_mem _ hmem, hhash⟩

theorem password_hash_invariant_witness :
    (∃ p, (⟨1, "alice", hash_password "pwA"⟩ : UserRow).password_hash
          = hash_password p
        ∧ (⟨1, "alice", hash_password "pwA"⟩ : UserRow).password_hash ≠ p)
    ∧ ((⟨1, "alice", hash_password "pwA"⟩ : UserRow) ∈ emptyDB.users
        ∨ ∃ c1 c2 p, DBOp.register c1 c2 "alice" p
              ∈ [DBOp.register goodConn goodConn "alice" "pwA"]
            ∧ (⟨1, "alice", hash_password "pwA"⟩ : UserRow).password_hash
              = hash_password p) := by
  have hmem : (⟨1, "alice", hash_password "pwA"⟩ : UserRow)
      ∈ (runOps emptyDB [DBOp.register goodConn goodConn "alice" "pwA"]).users := by
    have hred : (runOps emptyDB [DBOp.register goodConn goodConn "alice" "pwA"]).users
        = [⟨1, "alice", hash_password "pwA"⟩] := rfl
    rw [hred]
    exact List.mem_singleton_self _
  exact password_hash_invariant [DBOp.register goodConn goodConn "alice" "pwA"]
    emptyDB (by simp [emptyDB]) ⟨1, "alice", hash_password "pwA"⟩ hmem
